import Mathlib

/-!
Shallow embedding of the room synchronization engine of the realtime
collaborative canvas server (`server/index.js`).

The server keeps an in-memory map `rooms : roomId -> { actions, clients,
users }` and reacts to the socket events `join-room`, `add-action`,
`update-action`, `undo-action`, `redo-action` and `disconnect`.  JavaScript
objects are modelled as ordered association lists, `Map` and `Set` as
association lists / lists with the corresponding first-match semantics, and
each handler as a pure function from the registry and the socket's state to
the new registry together with the list of emitted events, each tagged with
its socket.io delivery target (`socket.emit`, `socket.to(room)`,
`io.to(room)`).
-/

set_option maxHeartbeats 1000000

namespace RealtimeCanvas

/-- A primitive JSON-like value stored in an action payload field. -/
inductive Val
  | str : String → Val
  | num : Int → Val
  | boolean : Bool → Val
  deriving DecidableEq, Repr

/-- A JavaScript object, modelled as an ordered association list of fields.
Later bindings shadow earlier ones, as with object spread syntax. -/
abbrev JsObj := List (String × Val)

/-- Field lookup on a JavaScript object: the last binding for a key wins,
matching object literal / spread construction `{ ...old, ...new }`. -/
def getField (o : JsObj) (k : String) : Option Val :=
  o.foldl (fun acc kv => if kv.1 = k then some kv.2 else acc) none

/-- The fields of a client-created action that the server reads or writes:
`action.id`, `action.userId`, `action.data`, `action.undone`.  All other
fields of the action object are opaque to the server. -/
structure Action where
  id : String
  userId : String
  data : JsObj
  undone : Bool
  deriving DecidableEq, Repr

/-- One room: `{ actions: [], clients: Set(socketId), users: Map(socketId ->
userId) }` as allocated by `ensureRoom`. -/
structure Room where
  actions : List Action
  clients : List String
  users : List (String × String)
  deriving DecidableEq, Repr

def emptyRoom : Room := { actions := [], clients := [], users := [] }

/-- The registry `rooms`, a JavaScript object keyed by room id (keys are
unique; first-match lookup). -/
abbrev Rooms := List (String × Room)

def findRoom : Rooms → String → Option Room
  | [], _ => none
  | (k, r) :: t, key => if k = key then some r else findRoom t key

def setRoom : Rooms → String → Room → Rooms
  | [], key, room => [(key, room)]
  | (k, r) :: t, key, room =>
    if k = key then (key, room) :: t else (k, r) :: setRoom t key room

/-- Models `ensureRoom(roomId)`: allocate `rooms[roomId]` if absent, return it. -/
def ensureRoom (rs : Rooms) (key : String) : Rooms × Room :=
  match findRoom rs key with
  | some r => (rs, r)
  | none => (setRoom rs key emptyRoom, emptyRoom)

/-- A JavaScript object (such as a room) is always truthy, so the
`if (!room) return` guard after `ensureRoom` never fires. -/
def roomTruthy (_ : Room) : Bool := true

/-- Models `Set.add`: append if not already present. -/
def setAdd (s : List String) (x : String) : List String :=
  if s.contains x then s else s ++ [x]

/-- Models `Set.delete` / `Map.delete`: remove the (unique) occurrence. -/
def setRemove (s : List String) (x : String) : List String :=
  s.filter (fun y => y ≠ x)

/-- Models `Map.get` / `Map.has`: first-match lookup. -/
def mapGet : List (String × String) → String → Option String
  | [], _ => none
  | (k, v) :: t, key => if k = key then some v else mapGet t key

/-- Models `Map.set`: overwrite in place when the key is present (keeping its
insertion position), otherwise append. -/
def mapSet : List (String × String) → String → String → List (String × String)
  | [], key, v => [(key, v)]
  | (k, w) :: t, key, v =>
    if k = key then (key, v) :: t else (k, w) :: mapSet t key v

def mapRemove (m : List (String × String)) (key : String) : List (String × String) :=
  m.filter (fun kv => kv.1 ≠ key)

/-- The per-connection state the server stores on the socket object:
`socket.id`, `socket.roomId`, `socket.userId` (the latter two are undefined
until `join-room` runs). -/
structure SocketState where
  sid : String
  roomId : Option String
  userId : Option String
  deriving DecidableEq, Repr

/-- JavaScript truthiness of a possibly-undefined string. -/
def strTruthy : Option String → Bool
  | none => false
  | some s => s ≠ ""

/-- Property access `rooms[socket.roomId]` coerces an undefined key to the
string "undefined". -/
def roomKeyOf : Option String → String
  | none => "undefined"
  | some r => r

/-- Delivery target of an emitted event: `socket.emit` (requester only),
`socket.to(roomId).emit` (everyone in the room except the sender),
`io.to(roomId).emit` (everyone in the room). -/
inductive Target
  | requester
  | others
  | room
  deriving DecidableEq, Repr

/-- The events the server emits, with their payloads. -/
inductive Event
  | roomState (roomId : String) (actions : List Action) (participants : List String)
  | userJoined (userId : Option String)
  | actionAdded (a : Action)
  | actionUpdated (actionId : String) (data : JsObj)
  | updateDenied (actionId : String) (reason : String)
  | actionUndone (actionId : String) (userId : String)
  | undoDenied (actionId : String) (reason : String)
  | actionRedone (actionId : String) (userId : String)
  | redoDenied (actionId : String) (reason : String)
  | userLeft (userId : String)
  deriving DecidableEq, Repr

structure Emit where
  target : Target
  event : Event
  deriving DecidableEq, Repr

/-- The concrete sessions a tagged emission reaches, given the room's
membership and the sender: `socket.emit` reaches exactly the sender,
`socket.to(room)` everyone joined except the sender, `io.to(room)` everyone
joined. -/
def recipients (clients : List String) (sender : String) : Target → List String
  | Target.requester => [sender]
  | Target.others => clients.filter (fun c => c ≠ sender)
  | Target.room => clients

/-- Replace the first element satisfying `p` by its image under `f`; this is
`findIndex` followed by in-place mutation of `actions[idx]`. -/
def updateFirst (p : Action → Bool) (f : Action → Action) : List Action → List Action
  | [] => []
  | a :: t => if p a then f a :: t else a :: updateFirst p f t

def setData (d : JsObj) (a : Action) : Action := { a with data := d }

def setUndone (b : Bool) (a : Action) : Action := { a with undone := b }

/-- The `join-room` handler.  `freshId` models the value `uuidv4()` would
return, used only when the supplied `roomId` is falsy. -/
def joinRoom (rs : Rooms) (s : SocketState) (roomId : Option String)
    (userId : Option String) (freshId : String) :
    Rooms × SocketState × List Emit :=
  let rid := if strTruthy roomId then roomId.getD freshId else freshId
  let s' : SocketState := { s with roomId := some rid, userId := userId }
  let er := ensureRoom rs rid
  let room₁ := { er.2 with clients := setAdd er.2.clients s.sid }
  let room₂ :=
    if strTruthy userId then
      { room₁ with users := mapSet room₁.users s.sid (userId.getD "") }
    else room₁
  (setRoom er.1 rid room₂, s',
    [⟨Target.requester,
      Event.roomState rid room₂.actions (room₂.users.map Prod.snd)⟩,
     ⟨Target.others, Event.userJoined userId⟩])

/-- The `add-action` handler. -/
def addAction (rs : Rooms) (s : SocketState) (a : Action) : Rooms × List Emit :=
  let key := roomKeyOf s.roomId
  let er := ensureRoom rs key
  if roomTruthy er.2 then
    let room' := { er.2 with actions := er.2.actions ++ [a] }
    (setRoom er.1 key room', [⟨Target.others, Event.actionAdded a⟩])
  else (er.1, [])

/-- The `update-action` handler. -/
def updateAction (rs : Rooms) (s : SocketState) (actionId : String)
    (d : JsObj) (rep : Bool) (uid : String) : Rooms × List Emit :=
  let key := roomKeyOf s.roomId
  let er := ensureRoom rs key
  if roomTruthy er.2 then
    match er.2.actions.find? (fun a => a.id = actionId) with
    | none => (er.1, [])
    | some action =>
      if action.userId ≠ uid then
        (er.1, [⟨Target.requester, Event.updateDenied actionId "not-owner"⟩])
      else
        let newData := if rep then d else action.data ++ d
        let room' := { er.2 with
          actions := updateFirst (fun a => a.id = actionId) (setData newData) er.2.actions }
        (setRoom er.1 key room', [⟨Target.room, Event.actionUpdated actionId newData⟩])
  else (er.1, [])

/-- The `undo-action` handler. -/
def undoAction (rs : Rooms) (s : SocketState) (actionId : String)
    (uid : String) : Rooms × List Emit :=
  let key := roomKeyOf s.roomId
  let er := ensureRoom rs key
  if roomTruthy er.2 then
    match er.2.actions.find? (fun a => a.id = actionId) with
    | none => (er.1, [])
    | some action =>
      if action.userId ≠ uid then
        (er.1, [⟨Target.requester, Event.undoDenied actionId "not-owner"⟩])
      else
        let room' := { er.2 with
          actions := updateFirst (fun a => a.id = actionId) (setUndone true) er.2.actions }
        (setRoom er.1 key room', [⟨Target.room, Event.actionUndone actionId uid⟩])
  else (er.1, [])

/-- The `redo-action` handler. -/
def redoAction (rs : Rooms) (s : SocketState) (actionId : String)
    (uid : String) : Rooms × List Emit :=
  let key := roomKeyOf s.roomId
  let er := ensureRoom rs key
  if roomTruthy er.2 then
    match er.2.actions.find? (fun a => a.id = actionId) with
    | none => (er.1, [])
    | some action =>
      if action.userId ≠ uid then
        (er.1, [⟨Target.requester, Event.redoDenied actionId "not-owner"⟩])
      else
        let room' := { er.2 with
          actions := updateFirst (fun a => a.id = actionId) (setUndone false) er.2.actions }
        (setRoom er.1 key room', [⟨Target.room, Event.actionRedone actionId uid⟩])
  else (er.1, [])

/-- The `disconnect` handler. -/
def disconnectSocket (rs : Rooms) (s : SocketState) : Rooms × List Emit :=
  match s.roomId with
  | none => (rs, [])
  | some rid =>
    match findRoom rs rid with
    | none => (rs, [])
    | some room =>
      let room₁ := { room with clients := setRemove room.clients s.sid }
      match mapGet room₁.users s.sid with
      | some uid =>
        let room₂ := { room₁ with users := mapRemove room₁.users s.sid }
        (setRoom rs rid room₂, [⟨Target.others, Event.userLeft uid⟩])
      | none => (setRoom rs rid room₁, [])

/-- One client intent, as dispatched by the socket event handlers. -/
inductive Op
  | join (roomId : Option String) (userId : Option String) (freshId : String)
  | add (a : Action)
  | update (actionId : String) (d : JsObj) (rep : Bool) (uid : String)
  | undo (actionId : String) (uid : String)
  | redo (actionId : String) (uid : String)
  | disc
  deriving Repr

/-- Dispatch of one intent against the registry and the session's state. -/
def step (rs : Rooms) (s : SocketState) : Op → Rooms × SocketState × List Emit
  | Op.join rid uid fresh => joinRoom rs s rid uid fresh
  | Op.add a => let r := addAction rs s a; (r.1, s, r.2)
  | Op.update aid d rep uid => let r := updateAction rs s aid d rep uid; (r.1, s, r.2)
  | Op.undo aid uid => let r := undoAction rs s aid uid; (r.1, s, r.2)
  | Op.redo aid uid => let r := redoAction rs s aid uid; (r.1, s, r.2)
  | Op.disc => let r := disconnectSocket rs s; (r.1, s, r.2)

/-- Run a sequence of intents from one session, threading the registry and
the socket state. -/
def runOps (rs : Rooms) (s : SocketState) : List Op → Rooms × SocketState
  | [] => (rs, s)
  | op :: rest =>
    let r := step rs s op
    runOps r.1 r.2.1 rest

/-- Look up an action in a room of the registry by its id (first match,
as `findIndex` does). -/
def getAction (rs : Rooms) (key : String) (actionId : String) : Option Action :=
  (findRoom rs key).bind (fun room => room.actions.find? (fun a => a.id = actionId))

/-! Concrete fixtures used to instantiate the theorems below on closed inputs:
one room "r" holding one action "a1" owned by "A", with two connected
sessions "s1" (identity "A") and "s2" (identity "B"). -/

def wAct : Action := { id := "a1", userId := "A", data := [("x", Val.num 1)], undone := false }

def wAct2 : Action := { id := "a2", userId := "B", data := [], undone := false }

def wRoom : Room :=
  { actions := [wAct], clients := ["s1", "s2"], users := [("s1", "A"), ("s2", "B")] }

def wRooms : Rooms := [("r", wRoom)]

def wSock : SocketState := { sid := "s1", roomId := some "r", userId := some "A" }

/-! ### Registry lemmas -/

theorem findRoom_setRoom_self (rs : Rooms) (k : String) (r : Room) :
    findRoom (setRoom rs k r) k = some r := by
  induction rs with
  | nil => simp [setRoom, findRoom]
  | cons hd t ih =>
    by_cases h : hd.1 = k
    · simp [setRoom, h, findRoom]
    · simp [setRoom, h, findRoom, ih]

theorem findRoom_setRoom_ne (rs : Rooms) (k k' : String) (r : Room)
    (h : k' ≠ k) : findRoom (setRoom rs k r) k' = findRoom rs k' := by
  induction rs with
  | nil => simp [setRoom, findRoom, Ne.symm h]
  | cons hd t ih =>
    by_cases hk : hd.1 = k
    · simp [setRoom, hk, findRoom, Ne.symm h]
    · by_cases hk' : hd.1 = k' <;> simp [setRoom, hk, findRoom, hk', ih, h]

theorem ensureRoom_of_found (rs : Rooms) (k : String) (room : Room)
    (h : findRoom rs k = some room) : ensureRoom rs k = (rs, room) := by
  simp [ensureRoom, h]

theorem ensureRoom_of_none (rs : Rooms) (k : String)
    (h : findRoom rs k = none) :
    ensureRoom rs k = (setRoom rs k emptyRoom, emptyRoom) := by
  simp [ensureRoom, h]

theorem findRoom_ensureRoom (rs : Rooms) (k : String) :
    findRoom (ensureRoom rs k).1 k = some (ensureRoom rs k).2 := by
  cases h : findRoom rs k with
  | none => simp [ensureRoom, h, findRoom_setRoom_self]
  | some r => simp [ensureRoom, h]

/-! ### updateFirst lemmas -/

theorem updateFirst_length (p : Action → Bool) (f : Action → Action)
    (l : List Action) : (updateFirst p f l).length = l.length := by
  induction l with
  | nil => rfl
  | cons a t ih =>
    by_cases h : p a
    · simp [updateFirst, h]
    · simp [updateFirst, h, ih]

theorem updateFirst_get? (p : Action → Bool) (f : Action → Action)
    (l : List Action) (i : Nat) :
    (updateFirst p f l).get? i = l.get? i ∨
      ∃ a, l.get? i = some a ∧ p a = true ∧
        (updateFirst p f l).get? i = some (f a) := by
  induction l generalizing i with
  | nil => left; rfl
  | cons a t ih =>
    by_cases h : p a
    · cases i with
      | zero => right; exact ⟨a, rfl, h, by simp [updateFirst, h]⟩
      | succ j => left; simp [updateFirst, h]
    · cases i with
      | zero => left; simp [updateFirst, h]
      | succ j =>
        rcases ih j with h1 | ⟨b, hb, hpb, hub⟩
        · left; simpa [updateFirst, h] using h1
        · right; exact ⟨b, by simpa using hb, hpb, by simpa [updateFirst, h] using hub⟩

theorem find?_updateFirst (p : Action → Bool) (f : Action → Action)
    (l : List Action) (a : Action) (hpf : ∀ b, p (f b) = p b)
    (h : l.find? p = some a) :
    (updateFirst p f l).find? p = some (f a) := by
  induction l with
  | nil => simp [List.find?] at h
  | cons b t ih =>
    by_cases hb : p b
    · have hba : b = a := by
        rw [List.find?_cons_of_pos _ hb] at h
        exact Option.some.inj h
      subst hba
      rw [show updateFirst p f (b :: t) = f b :: t by simp [updateFirst, hb]]
      rw [List.find?_cons_of_pos _ (by rw [hpf]; exact hb)]
    · have h' : t.find? p = some a := by
        rw [List.find?_cons_of_neg _ (by simpa using hb)] at h
        exact h
      rw [show updateFirst p f (b :: t) = b :: updateFirst p f t by simp [updateFirst, hb]]
      rw [List.find?_cons_of_neg _ (by simpa using hb)]
      exact ih h'

/-! ### getField lemmas -/

theorem getField_foldl (o : JsObj) (k : String) (acc : Option Val) :
    o.foldl (fun acc kv => if kv.1 = k then some kv.2 else acc) acc =
      match getField o k with
      | some v => some v
      | none => acc := by
  induction o generalizing acc with
  | nil => simp [getField]
  | cons kv t ih =>
    show t.foldl _ (if kv.1 = k then some kv.2 else acc) = _
    rw [ih]
    have ht : getField (kv :: t) k =
        match getField t k with
        | some v => some v
        | none => if kv.1 = k then some kv.2 else none := by
      show t.foldl _ (if kv.1 = k then some kv.2 else none) = _
      rw [ih]
    rw [ht]
    cases getField t k with
    | some v => rfl
    | none =>
      by_cases hk : kv.1 = k <;> simp [hk]

theorem getField_append (o₁ o₂ : JsObj) (k : String) :
    getField (o₁ ++ o₂) k =
      match getField o₂ k with
      | some v => some v
      | none => getField o₁ k := by
  show (o₁ ++ o₂).foldl _ none = _
  rw [List.foldl_append]
  exact getField_foldl o₂ k _

/-! ### users map lemmas -/

theorem mapSet_mem_snd (m : List (String × String)) (k u : String) :
    u ∈ (mapSet m k u).map Prod.snd := by
  induction m with
  | nil => simp [mapSet]
  | cons kv t ih =>
    by_cases h : kv.1 = k
    · simp [mapSet, h]
    · have hm : mapSet (kv :: t) k u = kv :: mapSet t k u := by
        simp [mapSet, h]
      rw [hm, List.map_cons, List.mem_cons]
      exact Or.inr ih

theorem findRoom_ensureRoom_ne (rs : Rooms) (k k' : String) (h : k' ≠ k) :
    findRoom (ensureRoom rs k).1 k' = findRoom rs k' := by
  cases hf : findRoom rs k with
  | none => simp [ensureRoom, hf, findRoom_setRoom_ne _ _ _ _ h]
  | some r => simp [ensureRoom, hf]

theorem updateFirst_get?_cases (p : Action → Bool) (f : Action → Action)
    (l : List Action) (i : Nat) (a : Action) (h : l.get? i = some a) :
    ∃ a', (updateFirst p f l).get? i = some a' ∧ (a' = a ∨ a' = f a) := by
  rcases updateFirst_get? p f l i with h1 | ⟨b, hb, _, hub⟩
  · exact ⟨a, h1.trans h, Or.inl rfl⟩
  · have hba : b = a := by rw [h] at hb; exact (Option.some.inj hb).symm
    subst hba
    exact ⟨f b, hub, Or.inr rfl⟩

/-! ### Handler branch unfoldings -/

theorem addAction_eq (rs : Rooms) (s : SocketState) (a : Action) (room : Room)
    (hroom : findRoom rs (roomKeyOf s.roomId) = some room) :
    addAction rs s a =
      (setRoom rs (roomKeyOf s.roomId) { room with actions := room.actions ++ [a] },
       [⟨Target.others, Event.actionAdded a⟩]) := by
  simp [addAction, ensureRoom_of_found _ _ _ hroom, roomTruthy]

theorem updateAction_unknown (rs : Rooms) (s : SocketState) (actionId : String)
    (d : JsObj) (rep : Bool) (uid : String) (room : Room)
    (hroom : findRoom rs (roomKeyOf s.roomId) = some room)
    (hnone : room.actions.find? (fun a => a.id = actionId) = none) :
    updateAction rs s actionId d rep uid = (rs, []) := by
  simp [updateAction, ensureRoom_of_found _ _ _ hroom, hnone, roomTruthy]

theorem updateAction_denied (rs : Rooms) (s : SocketState) (actionId : String)
    (d : JsObj) (rep : Bool) (uid : String) (room : Room) (action : Action)
    (hroom : findRoom rs (roomKeyOf s.roomId) = some room)
    (hfind : room.actions.find? (fun a => a.id = actionId) = some action)
    (howner : ¬ action.userId = uid) :
    updateAction rs s actionId d rep uid =
      (rs, [⟨Target.requester, Event.updateDenied actionId "not-owner"⟩]) := by
  simp [updateAction, ensureRoom_of_found _ _ _ hroom, hfind, howner, roomTruthy]

theorem updateAction_ok (rs : Rooms) (s : SocketState) (actionId : String)
    (d : JsObj) (rep : Bool) (uid : String) (room : Room) (action : Action)
    (hroom : findRoom rs (roomKeyOf s.roomId) = some room)
    (hfind : room.actions.find? (fun a => a.id = actionId) = some action)
    (howner : action.userId = uid) :
    updateAction rs s actionId d rep uid =
      (setRoom rs (roomKeyOf s.roomId)
        { room with
          actions := updateFirst (fun a => a.id = actionId)
                       (setData (if rep then d else action.data ++ d)) room.actions },
       [⟨Target.room, Event.actionUpdated actionId (if rep then d else action.data ++ d)⟩]) := by
  simp [updateAction, ensureRoom_of_found _ _ _ hroom, hfind, howner, roomTruthy]

theorem undoAction_unknown (rs : Rooms) (s : SocketState) (actionId : String)
    (uid : String) (room : Room)
    (hroom : findRoom rs (roomKeyOf s.roomId) = some room)
    (hnone : room.actions.find? (fun a => a.id = actionId) = none) :
    undoAction rs s actionId uid = (rs, []) := by
  simp [undoAction, ensureRoom_of_found _ _ _ hroom, hnone, roomTruthy]

theorem undoAction_denied (rs : Rooms) (s : SocketState) (actionId : String)
    (uid : String) (room : Room) (action : Action)
    (hroom : findRoom rs (roomKeyOf s.roomId) = some room)
    (hfind : room.actions.find? (fun a => a.id = actionId) = some action)
    (howner : ¬ action.userId = uid) :
    undoAction rs s actionId uid =
      (rs, [⟨Target.requester, Event.undoDenied actionId "not-owner"⟩]) := by
  simp [undoAction, ensureRoom_of_found _ _ _ hroom, hfind, howner, roomTruthy]

theorem undoAction_ok (rs : Rooms) (s : SocketState) (actionId : String)
    (uid : String) (room : Room) (action : Action)
    (hroom : findRoom rs (roomKeyOf s.roomId) = some room)
    (hfind : room.actions.find? (fun a => a.id = actionId) = some action)
    (howner : action.userId = uid) :
    undoAction rs s actionId uid =
      (setRoom rs (roomKeyOf s.roomId)
        { room with
          actions := updateFirst (fun a => a.id = actionId)
                       (setUndone true) room.actions },
       [⟨Target.room, Event.actionUndone actionId uid⟩]) := by
  simp [undoAction, ensureRoom_of_found _ _ _ hroom, hfind, howner, roomTruthy]

theorem redoAction_unknown (rs : Rooms) (s : SocketState) (actionId : String)
    (uid : String) (room : Room)
    (hroom : findRoom rs (roomKeyOf s.roomId) = some room)
    (hnone : room.actions.find? (fun a => a.id = actionId) = none) :
    redoAction rs s actionId uid = (rs, []) := by
  simp [redoAction, ensureRoom_of_found _ _ _ hroom, hnone, roomTruthy]

theorem redoAction_denied (rs : Rooms) (s : SocketState) (actionId : String)
    (uid : String) (room : Room) (action : Action)
    (hroom : findRoom rs (roomKeyOf s.roomId) = some room)
    (hfind : room.actions.find? (fun a => a.id = actionId) = some action)
    (howner : ¬ action.userId = uid) :
    redoAction rs s actionId uid =
      (rs, [⟨Target.requester, Event.redoDenied actionId "not-owner"⟩]) := by
  simp [redoAction, ensureRoom_of_found _ _ _ hroom, hfind, howner, roomTruthy]

theorem redoAction_ok (rs : Rooms) (s : SocketState) (actionId : String)
    (uid : String) (room : Room) (action : Action)
    (hroom : findRoom rs (roomKeyOf s.roomId) = some room)
    (hfind : room.actions.find? (fun a => a.id = actionId) = some action)
    (howner : action.userId = uid) :
    redoAction rs s actionId uid =
      (setRoom rs (roomKeyOf s.roomId)
        { room with
          actions := updateFirst (fun a => a.id = actionId)
                       (setUndone false) room.actions },
       [⟨Target.room, Event.actionRedone actionId uid⟩]) := by
  simp [redoAction, ensureRoom_of_found _ _ _ hroom, hfind, howner, roomTruthy]

theorem getAction_after_updateFirst (rs : Rooms) (key actionId : String)
    (room : Room) (f : Action → Action) (action : Action)
    (hid : ∀ b, (f b).id = b.id)
    (hfind : room.actions.find? (fun a => a.id = actionId) = some action) :
    getAction
      (setRoom rs key { room with
        actions := updateFirst (fun a => a.id = actionId) f room.actions })
      key actionId = some (f action) := by
  simp only [getAction, findRoom_setRoom_self, Option.bind_some]
  exact find?_updateFirst _ f _ action (fun b => by simp [hid]) hfind

/-- Claim C1: for every Update, Undo, or Redo intent targeting an action
present in the room's log, the mutation is applied iff the claimed owner
identity equals the action's recorded owner identity; when they differ, the
room registry is completely unchanged and the only emission is the matching
denial event with reason "not-owner", delivered to the requesting session
only (target `requester`), never broadcast. -/
theorem claim1_ownership_gate (rs : Rooms) (s : SocketState)
    (actionId uid : String) (d : JsObj) (rep : Bool) (room : Room) (action : Action)
    (hroom : findRoom rs (roomKeyOf s.roomId) = some room)
    (hfind : room.actions.find? (fun a => a.id = actionId) = some action) :
    (¬ action.userId = uid →
      updateAction rs s actionId d rep uid =
        (rs, [⟨Target.requester, Event.updateDenied actionId "not-owner"⟩]) ∧
      undoAction rs s actionId uid =
        (rs, [⟨Target.requester, Event.undoDenied actionId "not-owner"⟩]) ∧
      redoAction rs s actionId uid =
        (rs, [⟨Target.requester, Event.redoDenied actionId "not-owner"⟩])) ∧
    (action.userId = uid →
      getAction (updateAction rs s actionId d rep uid).1 (roomKeyOf s.roomId) actionId =
        some (setData (if rep then d else action.data ++ d) action) ∧
      getAction (undoAction rs s actionId uid).1 (roomKeyOf s.roomId) actionId =
        some (setUndone true action) ∧
      getAction (redoAction rs s actionId uid).1 (roomKeyOf s.roomId) actionId =
        some (setUndone false action)) := by
  constructor
  · intro h
    exact ⟨updateAction_denied rs s actionId d rep uid room action hroom hfind h,
           undoAction_denied rs s actionId uid room action hroom hfind h,
           redoAction_denied rs s actionId uid room action hroom hfind h⟩
  · intro h
    refine ⟨?_, ?_, ?_⟩
    · rw [updateAction_ok rs s actionId d rep uid room action hroom hfind h]
      exact getAction_after_updateFirst rs _ actionId room _ action (fun b => rfl) hfind
    · rw [undoAction_ok rs s actionId uid room action hroom hfind h]
      exact getAction_after_updateFirst rs _ actionId room _ action (fun b => rfl) hfind
    · rw [redoAction_ok rs s actionId uid room action hroom hfind h]
      exact getAction_after_updateFirst rs _ actionId room _ action (fun b => rfl) hfind

/-- Witness for C1: the gate instantiated in room "r" on action "a1"
(owned by "A") with claimed identity "A". -/
theorem claim1_ownership_gate_witness :
    (findRoom wRooms (roomKeyOf wSock.roomId) = some wRoom ∧
     wRoom.actions.find? (fun a => a.id = "a1") = some wAct) ∧
    ((¬ wAct.userId = "A" →
      updateAction wRooms wSock "a1" [] true "A" =
        (wRooms, [⟨Target.requester, Event.updateDenied "a1" "not-owner"⟩]) ∧
      undoAction wRooms wSock "a1" "A" =
        (wRooms, [⟨Target.requester, Event.undoDenied "a1" "not-owner"⟩]) ∧
      redoAction wRooms wSock "a1" "A" =
        (wRooms, [⟨Target.requester, Event.redoDenied "a1" "not-owner"⟩])) ∧
    (wAct.userId = "A" →
      getAction (updateAction wRooms wSock "a1" [] true "A").1 (roomKeyOf wSock.roomId) "a1" =
        some (setData (if true then [] else wAct.data ++ []) wAct) ∧
      getAction (undoAction wRooms wSock "a1" "A").1 (roomKeyOf wSock.roomId) "a1" =
        some (setUndone true wAct) ∧
      getAction (redoAction wRooms wSock "a1" "A").1 (roomKeyOf wSock.roomId) "a1" =
        some (setUndone false wAct))) :=
  ⟨⟨rfl, by decide⟩,
   claim1_ownership_gate wRooms wSock "a1" "A" [] true wRoom wAct rfl (by decide)⟩

/-- Claim C4: for an action owned by the requester, applying Undo twice in
succession leaves the action with `undone = true` (the second Undo does not
toggle it back), and applying Redo twice in succession leaves
`undone = false`: accepted Undo and Redo are idempotent on the action's
state. -/
theorem claim4_undo_redo_idempotent (rs : Rooms) (s : SocketState)
    (actionId uid : String) (room : Room) (action : Action)
    (hroom : findRoom rs (roomKeyOf s.roomId) = some room)
    (hfind : room.actions.find? (fun a => a.id = actionId) = some action)
    (howner : action.userId = uid) :
    getAction (undoAction rs s actionId uid).1 (roomKeyOf s.roomId) actionId =
      some (setUndone true action) ∧
    getAction (undoAction (undoAction rs s actionId uid).1 s actionId uid).1
      (roomKeyOf s.roomId) actionId = some (setUndone true action) ∧
    getAction (redoAction rs s actionId uid).1 (roomKeyOf s.roomId) actionId =
      some (setUndone false action) ∧
    getAction (redoAction (redoAction rs s actionId uid).1 s actionId uid).1
      (roomKeyOf s.roomId) actionId = some (setUndone false action) := by
  have pu := undoAction_ok rs s actionId uid room action hroom hfind howner
  have pr := redoAction_ok rs s actionId uid room action hroom hfind howner
  have hfindu : (updateFirst (fun a => a.id = actionId) (setUndone true)
      room.actions).find? (fun a => a.id = actionId) = some (setUndone true action) :=
    find?_updateFirst _ _ _ action (fun b => rfl) hfind
  have hfindr : (updateFirst (fun a => a.id = actionId) (setUndone false)
      room.actions).find? (fun a => a.id = actionId) = some (setUndone false action) :=
    find?_updateFirst _ _ _ action (fun b => rfl) hfind
  refine ⟨?_, ?_, ?_, ?_⟩
  · rw [pu]
    exact getAction_after_updateFirst rs _ actionId room _ action (fun b => rfl) hfind
  · rw [pu]
    rw [undoAction_ok _ s actionId uid _ (setUndone true action)
      (findRoom_setRoom_self _ _ _) hfindu howner]
    exact getAction_after_updateFirst _ _ actionId _ _ (setUndone true action)
      (fun b => rfl) hfindu
  · rw [pr]
    exact getAction_after_updateFirst rs _ actionId room _ action (fun b => rfl) hfind
  · rw [pr]
    rw [redoAction_ok _ s actionId uid _ (setUndone false action)
      (findRoom_setRoom_self _ _ _) hfindr howner]
    exact getAction_after_updateFirst _ _ actionId _ _ (setUndone false action)
      (fun b => rfl) hfindr

/-- Witness for C4: double Undo and double Redo on action "a1" by its
owner "A" in room "r". -/
theorem claim4_undo_redo_idempotent_witness :
    (findRoom wRooms (roomKeyOf wSock.roomId) = some wRoom ∧
     wRoom.actions.find? (fun a => a.id = "a1") = some wAct ∧
     wAct.userId = "A") ∧
    (getAction (undoAction wRooms wSock "a1" "A").1 (roomKeyOf wSock.roomId) "a1" =
      some (setUndone true wAct) ∧
    getAction (undoAction (undoAction wRooms wSock "a1" "A").1 wSock "a1" "A").1
      (roomKeyOf wSock.roomId) "a1" = some (setUndone true wAct) ∧
    getAction (redoAction wRooms wSock "a1" "A").1 (roomKeyOf wSock.roomId) "a1" =
      some (setUndone false wAct) ∧
    getAction (redoAction (redoAction wRooms wSock "a1" "A").1 wSock "a1" "A").1
      (roomKeyOf wSock.roomId) "a1" = some (setUndone false wAct)) :=
  ⟨⟨rfl, by decide, rfl⟩,
   claim4_undo_redo_idempotent wRooms wSock "a1" "A" wRoom wAct rfl (by decide) rfl⟩

/-- Claim C6: for every accepted Update on an existing action, with
`replace = true` the action's payload is replaced wholesale by the supplied
payload; with `replace = false` the new payload is shallow-merged into the
existing one — a field named in the new payload overwrites the same-named
old field and every other old field is retained unchanged. -/
theorem claim6_update_replace_merge (rs : Rooms) (s : SocketState)
    (actionId uid : String) (d : JsObj) (rep : Bool) (room : Room) (action : Action)
    (hroom : findRoom rs (roomKeyOf s.roomId) = some room)
    (hfind : room.actions.find? (fun a => a.id = actionId) = some action)
    (howner : action.userId = uid) :
    getAction (updateAction rs s actionId d rep uid).1 (roomKeyOf s.roomId) actionId =
      some { action with data := if rep then d else action.data ++ d } ∧
    (∀ k, getField (action.data ++ d) k =
      match getField d k with
      | some v => some v
      | none => getField action.data k) := by
  constructor
  · rw [updateAction_ok rs s actionId d rep uid room action hroom hfind howner]
    exact getAction_after_updateFirst rs _ actionId room _ action (fun b => rfl) hfind
  · exact fun k => getField_append action.data d k

/-- Witness for C6: owner "A" merges `[("y", 2)]` into action "a1" whose
payload is `[("x", 1)]`, with `replace = false`. -/
theorem claim6_update_replace_merge_witness :
    (findRoom wRooms (roomKeyOf wSock.roomId) = some wRoom ∧
     wRoom.actions.find? (fun a => a.id = "a1") = some wAct ∧
     wAct.userId = "A") ∧
    (getAction (updateAction wRooms wSock "a1" [("y", Val.num 2)] false "A").1
        (roomKeyOf wSock.roomId) "a1" =
      some { wAct with
             data := if false then [("y", Val.num 2)]
                     else wAct.data ++ [("y", Val.num 2)] } ∧
    (∀ k, getField (wAct.data ++ [("y", Val.num 2)]) k =
      match getField [("y", Val.num 2)] k with
      | some v => some v
      | none => getField wAct.data k)) :=
  ⟨⟨rfl, by decide, rfl⟩,
   claim6_update_replace_merge wRooms wSock "a1" "A" [("y", Val.num 2)] false
     wRoom wAct rfl (by decide) rfl⟩

/-- Claim C7: for every Update, Undo, or Redo intent whose `actionId` is not
present in the room's log, the operation is a silent no-op: the registry is
unchanged and no event of any kind is emitted. -/
theorem claim7_unknown_action_noop (rs : Rooms) (s : SocketState)
    (actionId uid : String) (d : JsObj) (rep : Bool) (room : Room)
    (hroom : findRoom rs (roomKeyOf s.roomId) = some room)
    (hnone : room.actions.find? (fun a => a.id = actionId) = none) :
    updateAction rs s actionId d rep uid = (rs, []) ∧
    undoAction rs s actionId uid = (rs, []) ∧
    redoAction rs s actionId uid = (rs, []) :=
  ⟨updateAction_unknown rs s actionId d rep uid room hroom hnone,
   undoAction_unknown rs s actionId uid room hroom hnone,
   redoAction_unknown rs s actionId uid room hroom hnone⟩

/-- Witness for C7: a mutation targeting the absent action id "zz" in
room "r" leaves the registry unchanged and emits nothing. -/
theorem claim7_unknown_action_noop_witness :
    (findRoom wRooms (roomKeyOf wSock.roomId) = some wRoom ∧
     wRoom.actions.find? (fun a => a.id = "zz") = none) ∧
    (updateAction wRooms wSock "zz" [] false "A" = (wRooms, []) ∧
     undoAction wRooms wSock "zz" "A" = (wRooms, []) ∧
     redoAction wRooms wSock "zz" "A" = (wRooms, [])) :=
  ⟨⟨rfl, by decide⟩,
   claim7_unknown_action_noop wRooms wSock "zz" "A" [] false wRoom rfl (by decide)⟩

/-- Claim C5: a Create's "action-added" event is multicast to every session
in the room except the originating one (`socket.to`), while an accepted
Update's "action-updated" event reaches every session in the room including
the originator (`io.to`). -/
theorem claim5_create_update_emission (rs : Rooms) (s : SocketState) (a : Action)
    (actionId uid : String) (d : JsObj) (rep : Bool) (room : Room) (action : Action)
    (hroom : findRoom rs (roomKeyOf s.roomId) = some room)
    (hfind : room.actions.find? (fun b => b.id = actionId) = some action)
    (howner : action.userId = uid)
    (hmem : s.sid ∈ room.clients) :
    (addAction rs s a).2 = [⟨Target.others, Event.actionAdded a⟩] ∧
    s.sid ∉ recipients room.clients s.sid Target.others ∧
    (∀ c ∈ room.clients, c ≠ s.sid → c ∈ recipients room.clients s.sid Target.others) ∧
    (updateAction rs s actionId d rep uid).2 =
      [⟨Target.room, Event.actionUpdated actionId (if rep then d else action.data ++ d)⟩] ∧
    s.sid ∈ recipients room.clients s.sid Target.room ∧
    (∀ c ∈ room.clients, c ∈ recipients room.clients s.sid Target.room) := by
  refine ⟨?_, ?_, ?_, ?_, ?_, ?_⟩
  · rw [addAction_eq rs s a room hroom]
  · simp [recipients]
  · intro c hc hne
    simp only [recipients, List.mem_filter]
    exact ⟨hc, by simpa using hne⟩
  · rw [updateAction_ok rs s actionId d rep uid room action hroom hfind howner]
  · exact hmem
  · exact fun c hc => hc

/-- Witness for C5: session "s1" creates action "a2" and updates its own
action "a1" in room "r" with sessions "s1" and "s2". -/
theorem claim5_create_update_emission_witness :
    (findRoom wRooms (roomKeyOf wSock.roomId) = some wRoom ∧
     wRoom.actions.find? (fun b => b.id = "a1") = some wAct ∧
     wAct.userId = "A" ∧
     wSock.sid ∈ wRoom.clients) ∧
    ((addAction wRooms wSock wAct2).2 = [⟨Target.others, Event.actionAdded wAct2⟩] ∧
    wSock.sid ∉ recipients wRoom.clients wSock.sid Target.others ∧
    (∀ c ∈ wRoom.clients, c ≠ wSock.sid →
      c ∈ recipients wRoom.clients wSock.sid Target.others) ∧
    (updateAction wRooms wSock "a1" [] true "A").2 =
      [⟨Target.room, Event.actionUpdated "a1" (if true then [] else wAct.data ++ [])⟩] ∧
    wSock.sid ∈ recipients wRoom.clients wSock.sid Target.room ∧
    (∀ c ∈ wRoom.clients, c ∈ recipients wRoom.clients wSock.sid Target.room)) :=
  ⟨⟨rfl, by decide, rfl, by decide⟩,
   claim5_create_update_emission wRooms wSock wAct2 "a1" "A" [] true wRoom wAct
     rfl (by decide) rfl (by decide)⟩

/-- Claim C9: a join intent carrying a falsy `roomId` is not rejected: the
generated fresh identifier keys a newly created empty room, the session is
registered there, the socket is bound to the generated id, and the snapshot
sent to the joiner carries the generated id. -/
theorem claim9_falsy_room_join (rs : Rooms) (s : SocketState)
    (rid uid : Option String) (fresh : String)
    (hfalsy : strTruthy rid = false)
    (hfresh : findRoom rs fresh = none) :
    ∃ room', findRoom (joinRoom rs s rid uid fresh).1 fresh = some room' ∧
      room'.actions = [] ∧ s.sid ∈ room'.clients ∧
      (joinRoom rs s rid uid fresh).2.1.roomId = some fresh ∧
      (joinRoom rs s rid uid fresh).2.2.head? =
        some ⟨Target.requester, Event.roomState fresh [] (room'.users.map Prod.snd)⟩ := by
  by_cases hu : strTruthy uid = true
  · refine ⟨{ emptyRoom with clients := [s.sid], users := [(s.sid, uid.getD "")] },
      ?_, rfl, by simp, ?_, ?_⟩
    · simp [joinRoom, hfalsy, hu, ensureRoom_of_none _ _ hfresh, setAdd, mapSet,
        emptyRoom, findRoom_setRoom_self]
    · simp [joinRoom, hfalsy]
    · simp [joinRoom, hfalsy, hu, ensureRoom_of_none _ _ hfresh, setAdd, mapSet,
        emptyRoom]
  · refine ⟨{ emptyRoom with clients := [s.sid] }, ?_, rfl, by simp, ?_, ?_⟩
    · simp [joinRoom, hfalsy, hu, ensureRoom_of_none _ _ hfresh, setAdd,
        emptyRoom, findRoom_setRoom_self]
    · simp [joinRoom, hfalsy]
    · simp [joinRoom, hfalsy, hu, ensureRoom_of_none _ _ hfresh, setAdd, emptyRoom]

/-- Witness for C9: a session joins with no `roomId`; the fresh id "f1"
names a new empty room. -/
theorem claim9_falsy_room_join_witness :
    (strTruthy none = false ∧ findRoom [] "f1" = none) ∧
    (∃ room',
      findRoom (joinRoom [] ⟨"s9", none, none⟩ none (some "A") "f1").1 "f1" = some room' ∧
      room'.actions = [] ∧ "s9" ∈ room'.clients ∧
      (joinRoom [] ⟨"s9", none, none⟩ none (some "A") "f1").2.1.roomId = some "f1" ∧
      (joinRoom [] ⟨"s9", none, none⟩ none (some "A") "f1").2.2.head? =
        some ⟨Target.requester, Event.roomState "f1" [] (room'.users.map Prod.snd)⟩) :=
  ⟨⟨rfl, rfl⟩, claim9_falsy_room_join [] ⟨"s9", none, none⟩ none (some "A") "f1" rfl rfl⟩

/-- Claim C10: a mutating intent from a session that never joined is not
rejected: the registry key is the string "undefined" (JavaScript property
access coerces the unset `socket.roomId`), `ensureRoom` lazily creates a
room there and always returns a truthy room (so the `if (!room) return`
guard never fires), and the mutation lands in that phantom room's log. -/
theorem claim10_phantom_room (rs : Rooms) (s : SocketState) (a : Action)
    (hnr : s.roomId = none)
    (habsent : findRoom rs "undefined" = none) :
    roomKeyOf s.roomId = "undefined" ∧
    (∀ r : Room, roomTruthy r = true) ∧
    ∃ room', findRoom (addAction rs s a).1 "undefined" = some room' ∧
      room'.actions = [a] := by
  refine ⟨by rw [hnr]; rfl, fun r => rfl, ?_⟩
  refine ⟨{ emptyRoom with actions := [a] }, ?_, rfl⟩
  simp [addAction, hnr, roomKeyOf, roomTruthy, ensureRoom_of_none _ _ habsent,
    emptyRoom, findRoom_setRoom_self]

/-- Witness for C10: an `add-action` from session "s9", which never joined,
creates and mutates the room keyed "undefined" in an empty registry. -/
theorem claim10_phantom_room_witness :
    ((⟨"s9", none, none⟩ : SocketState).roomId = none ∧
     findRoom [] "undefined" = none) ∧
    (roomKeyOf (⟨"s9", none, none⟩ : SocketState).roomId = "undefined" ∧
    (∀ r : Room, roomTruthy r = true) ∧
    ∃ room', findRoom (addAction [] ⟨"s9", none, none⟩ wAct2).1 "undefined" = some room' ∧
      room'.actions = [wAct2]) :=
  ⟨⟨rfl, rfl⟩, claim10_phantom_room [] ⟨"s9", none, none⟩ wAct2 rfl rfl⟩

/-- Counterexample to C2 as stated: when sessions "s1" and "s2" both join
room "r" under the same identity "A", the snapshot sent to the second
joiner lists the identity twice — the participants list is not
de-duplicated. -/
theorem claim2_join_snapshot_counterexample :
    ((joinRoom (joinRoom [] ⟨"s1", none, none⟩ (some "r") (some "A") "f1").1
        ⟨"s2", none, none⟩ (some "r") (some "A") "f2").2.2.head? =
      some ⟨Target.requester, Event.roomState "r" [] ["A", "A"]⟩) ∧
    ¬ (["A", "A"] : List String).Nodup := by
  constructor
  · decide
  · decide

/-- Claim C2 (amended): on join with a truthy room id and identity, the
joining session alone receives a snapshot with the entire current action
log (undone entries included, since the log is sent as is) and the list of
identities of all registered sessions in registration order — one entry per
session, so an identity shared by several sessions appears once per
session, not de-duplicated — including the joiner's own identity. -/
theorem claim2_join_snapshot_amended (rs : Rooms) (s : SocketState)
    (r u fresh : String) (room : Room)
    (hr : r ≠ "") (hu : u ≠ "")
    (hroom : findRoom rs r = some room) :
    (joinRoom rs s (some r) (some u) fresh).2.2 =
      [⟨Target.requester, Event.roomState r room.actions
          ((mapSet room.users s.sid u).map Prod.snd)⟩,
       ⟨Target.others, Event.userJoined (some u)⟩] ∧
    u ∈ (mapSet room.users s.sid u).map Prod.snd := by
  constructor
  · simp [joinRoom, strTruthy, hr, hu, ensureRoom_of_found _ _ _ hroom]
  · exact mapSet_mem_snd room.users s.sid u

/-- Witness for the amended C2: session "s3" with identity "B" joins the
existing room "r". -/
theorem claim2_join_snapshot_amended_witness :
    ("r" ≠ "" ∧ "B" ≠ "" ∧ findRoom wRooms "r" = some wRoom) ∧
    ((joinRoom wRooms ⟨"s3", none, none⟩ (some "r") (some "B") "f9").2.2 =
      [⟨Target.requester, Event.roomState "r" wRoom.actions
          ((mapSet wRoom.users "s3" "B").map Prod.snd)⟩,
       ⟨Target.others, Event.userJoined (some "B")⟩] ∧
    "B" ∈ (mapSet wRoom.users "s3" "B").map Prod.snd) :=
  ⟨⟨by decide, by decide, rfl⟩,
   claim2_join_snapshot_amended wRooms ⟨"s3", none, none⟩ "r" "B" "f9" wRoom
     (by decide) (by decide) rfl⟩

/-! ### Log frame lemmas: how one room's log can evolve in one step -/

theorem logFrame_of_eq (room room' : Room) (h : room'.actions = room.actions) :
    room.actions.length ≤ room'.actions.length ∧
    ∀ i, i < room.actions.length →
      (room'.actions.get? i).map (fun a => (a.id, a.userId)) =
      (room.actions.get? i).map (fun a => (a.id, a.userId)) := by
  rw [h]
  exact ⟨le_refl _, fun i _ => rfl⟩

theorem logFrame_of_append (room room' : Room) (a : Action)
    (h : room'.actions = room.actions ++ [a]) :
    room.actions.length ≤ room'.actions.length ∧
    ∀ i, i < room.actions.length →
      (room'.actions.get? i).map (fun b => (b.id, b.userId)) =
      (room.actions.get? i).map (fun b => (b.id, b.userId)) := by
  rw [h]
  constructor
  · simp
  · intro i hi
    rw [List.get?_append hi]

theorem logFrame_of_updateFirst (room room' : Room) (p : Action → Bool)
    (f : Action → Action)
    (hf : ∀ b, (f b).id = b.id ∧ (f b).userId = b.userId)
    (h : room'.actions = updateFirst p f room.actions) :
    room.actions.length ≤ room'.actions.length ∧
    ∀ i, i < room.actions.length →
      (room'.actions.get? i).map (fun b => (b.id, b.userId)) =
      (room.actions.get? i).map (fun b => (b.id, b.userId)) := by
  rw [h]
  constructor
  · rw [updateFirst_length]
  · intro i hi
    have hg : room.actions.get? i = some (room.actions.get ⟨i, hi⟩) :=
      List.get?_eq_get hi
    rcases updateFirst_get?_cases p f room.actions i _ hg with ⟨a', ha', hc⟩
    rw [ha', hg]
    rcases hc with rfl | rfl
    · rfl
    · simp [(hf _).1, (hf _).2]

/-! ### Shape of each handler's resulting registry -/

theorem addAction_fst_shape (rs : Rooms) (s : SocketState) (a : Action) :
    ∃ X, (addAction rs s a).1 =
      setRoom (ensureRoom rs (roomKeyOf s.roomId)).1 (roomKeyOf s.roomId) X := by
  refine ⟨{ (ensureRoom rs (roomKeyOf s.roomId)).2 with
            actions := (ensureRoom rs (roomKeyOf s.roomId)).2.actions ++ [a] }, ?_⟩
  simp [addAction, roomTruthy]

theorem updateAction_fst_shape (rs : Rooms) (s : SocketState) (aid : String)
    (d : JsObj) (rep : Bool) (uid : String) :
    (updateAction rs s aid d rep uid).1 = (ensureRoom rs (roomKeyOf s.roomId)).1 ∨
    ∃ X, (updateAction rs s aid d rep uid).1 =
      setRoom (ensureRoom rs (roomKeyOf s.roomId)).1 (roomKeyOf s.roomId) X := by
  simp only [updateAction, roomTruthy, if_true]
  cases hf : (ensureRoom rs (roomKeyOf s.roomId)).2.actions.find? (fun a => a.id = aid) with
  | none => left; rfl
  | some act =>
    by_cases ho : act.userId = uid
    · right
      refine ⟨{ (ensureRoom rs (roomKeyOf s.roomId)).2 with
                actions := updateFirst (fun a => a.id = aid)
                             (setData (if rep then d else act.data ++ d))
                             (ensureRoom rs (roomKeyOf s.roomId)).2.actions }, ?_⟩
      simp [ho]
    · left; simp [ho]

theorem undoAction_fst_shape (rs : Rooms) (s : SocketState) (aid uid : String) :
    (undoAction rs s aid uid).1 = (ensureRoom rs (roomKeyOf s.roomId)).1 ∨
    ∃ X, (undoAction rs s aid uid).1 =
      setRoom (ensureRoom rs (roomKeyOf s.roomId)).1 (roomKeyOf s.roomId) X := by
  simp only [undoAction, roomTruthy, if_true]
  cases hf : (ensureRoom rs (roomKeyOf s.roomId)).2.actions.find? (fun a => a.id = aid) with
  | none => left; rfl
  | some act =>
    by_cases ho : act.userId = uid
    · right
      refine ⟨{ (ensureRoom rs (roomKeyOf s.roomId)).2 with
                actions := updateFirst (fun a => a.id = aid) (setUndone true)
                             (ensureRoom rs (roomKeyOf s.roomId)).2.actions }, ?_⟩
      simp [ho]
    · left; simp [ho]

theorem redoAction_fst_shape (rs : Rooms) (s : SocketState) (aid uid : String) :
    (redoAction rs s aid uid).1 = (ensureRoom rs (roomKeyOf s.roomId)).1 ∨
    ∃ X, (redoAction rs s aid uid).1 =
      setRoom (ensureRoom rs (roomKeyOf s.roomId)).1 (roomKeyOf s.roomId) X := by
  simp only [redoAction, roomTruthy, if_true]
  cases hf : (ensureRoom rs (roomKeyOf s.roomId)).2.actions.find? (fun a => a.id = aid) with
  | none => left; rfl
  | some act =>
    by_cases ho : act.userId = uid
    · right
      refine ⟨{ (ensureRoom rs (roomKeyOf s.roomId)).2 with
                actions := updateFirst (fun a => a.id = aid) (setUndone false)
                             (ensureRoom rs (roomKeyOf s.roomId)).2.actions }, ?_⟩
      simp [ho]
    · left; simp [ho]

theorem addAction_findRoom_ne (rs : Rooms) (s : SocketState) (a : Action)
    (key : String) (hk : key ≠ roomKeyOf s.roomId) :
    findRoom (addAction rs s a).1 key = findRoom rs key := by
  obtain ⟨X, h⟩ := addAction_fst_shape rs s a
  rw [h, findRoom_setRoom_ne _ _ _ _ hk, findRoom_ensureRoom_ne _ _ _ hk]

theorem updateAction_findRoom_ne (rs : Rooms) (s : SocketState) (aid : String)
    (d : JsObj) (rep : Bool) (uid : String) (key : String)
    (hk : key ≠ roomKeyOf s.roomId) :
    findRoom (updateAction rs s aid d rep uid).1 key = findRoom rs key := by
  rcases updateAction_fst_shape rs s aid d rep uid with h | ⟨X, h⟩
  · rw [h, findRoom_ensureRoom_ne _ _ _ hk]
  · rw [h, findRoom_setRoom_ne _ _ _ _ hk, findRoom_ensureRoom_ne _ _ _ hk]

theorem undoAction_findRoom_ne (rs : Rooms) (s : SocketState) (aid uid : String)
    (key : String) (hk : key ≠ roomKeyOf s.roomId) :
    findRoom (undoAction rs s aid uid).1 key = findRoom rs key := by
  rcases undoAction_fst_shape rs s aid uid with h | ⟨X, h⟩
  · rw [h, findRoom_ensureRoom_ne _ _ _ hk]
  · rw [h, findRoom_setRoom_ne _ _ _ _ hk, findRoom_ensureRoom_ne _ _ _ hk]

theorem redoAction_findRoom_ne (rs : Rooms) (s : SocketState) (aid uid : String)
    (key : String) (hk : key ≠ roomKeyOf s.roomId) :
    findRoom (redoAction rs s aid uid).1 key = findRoom rs key := by
  rcases redoAction_fst_shape rs s aid uid with h | ⟨X, h⟩
  · rw [h, findRoom_ensureRoom_ne _ _ _ hk]
  · rw [h, findRoom_setRoom_ne _ _ _ _ hk, findRoom_ensureRoom_ne _ _ _ hk]

theorem joinRoom_findRoom_ne (rs : Rooms) (s : SocketState)
    (rid uid : Option String) (fresh : String) (key : String)
    (hk : key ≠ (if strTruthy rid then rid.getD fresh else fresh)) :
    findRoom (joinRoom rs s rid uid fresh).1 key = findRoom rs key := by
  simp only [joinRoom]
  rw [findRoom_setRoom_ne _ _ _ _ hk, findRoom_ensureRoom_ne _ _ _ hk]

theorem joinRoom_actions_preserved (rs : Rooms) (s : SocketState)
    (rid uid : Option String) (fresh : String) (room : Room)
    (h : findRoom rs (if strTruthy rid then rid.getD fresh else fresh) = some room) :
    ∃ room', findRoom (joinRoom rs s rid uid fresh).1
        (if strTruthy rid then rid.getD fresh else fresh) = some room' ∧
      room'.actions = room.actions := by
  by_cases hu : strTruthy uid = true
  · refine ⟨{ room with
        clients := setAdd room.clients s.sid,
        users := mapSet room.users s.sid (uid.getD "") }, ?_, rfl⟩
    simp only [joinRoom, ensureRoom_of_found _ _ _ h, hu, if_true]
    exact findRoom_setRoom_self _ _ _
  · refine ⟨{ room with clients := setAdd room.clients s.sid }, ?_, rfl⟩
    simp only [joinRoom, ensureRoom_of_found _ _ _ h, hu, if_false]
    exact findRoom_setRoom_self _ _ _

theorem disconnect_findRoom_cases (rs : Rooms) (s : SocketState) (key : String) :
    findRoom (disconnectSocket rs s).1 key = findRoom rs key ∨
    ∃ room room', findRoom rs key = some room ∧
      findRoom (disconnectSocket rs s).1 key = some room' ∧
      room'.actions = room.actions := by
  cases hs : s.roomId with
  | none => left; simp [disconnectSocket, hs]
  | some rid =>
    cases hr : findRoom rs rid with
    | none => left; simp [disconnectSocket, hs, hr]
    | some room =>
      by_cases hk : key = rid
      · subst hk
        cases hg : mapGet ({ room with clients := setRemove room.clients s.sid } : Room).users s.sid with
        | some uid =>
          right
          refine ⟨room,
            { room with
              clients := setRemove room.clients s.sid,
              users := mapRemove room.users s.sid },
            hr, ?_, rfl⟩
          simp only [disconnectSocket, hs, hr, hg]
          exact findRoom_setRoom_self _ _ _
        | none =>
          right
          refine ⟨room, { room with clients := setRemove room.clients s.sid }, hr, ?_, rfl⟩
          simp only [disconnectSocket, hs, hr, hg]
          exact findRoom_setRoom_self _ _ _
      · left
        cases hg : mapGet ({ room with clients := setRemove room.clients s.sid } : Room).users s.sid with
        | some uid =>
          simp only [disconnectSocket, hs, hr, hg]
          exact findRoom_setRoom_ne _ _ _ _ hk
        | none =>
          simp only [disconnectSocket, hs, hr, hg]
          exact findRoom_setRoom_ne _ _ _ _ hk

/-- One step of any handler preserves the log's existing indices: length is
non-decreasing and the `id` and owner at each existing index are kept. -/
theorem step_log_frame (rs : Rooms) (s : SocketState) (op : Op)
    (key : String) (room : Room)
    (h : findRoom rs key = some room) :
    ∃ room', findRoom (step rs s op).1 key = some room' ∧
      room.actions.length ≤ room'.actions.length ∧
      ∀ i, i < room.actions.length →
        (room'.actions.get? i).map (fun a => (a.id, a.userId)) =
        (room.actions.get? i).map (fun a => (a.id, a.userId)) := by
  cases op with
  | join rid uid fresh =>
    simp only [step]
    by_cases hk : key = (if strTruthy rid then rid.getD fresh else fresh)
    · obtain ⟨room', h1, h2⟩ :=
        joinRoom_actions_preserved rs s rid uid fresh room (by rw [← hk]; exact h)
      exact ⟨room', by rw [hk]; exact h1, logFrame_of_eq room room' h2⟩
    · exact ⟨room, by rw [joinRoom_findRoom_ne rs s rid uid fresh key hk]; exact h,
        logFrame_of_eq room room rfl⟩
  | add a =>
    simp only [step]
    by_cases hk : key = roomKeyOf s.roomId
    · have h' : findRoom rs (roomKeyOf s.roomId) = some room := by rw [← hk]; exact h
      refine ⟨{ room with actions := room.actions ++ [a] }, ?_,
        logFrame_of_append room _ a rfl⟩
      rw [addAction_eq rs s a room h', hk]
      exact findRoom_setRoom_self _ _ _
    · exact ⟨room, by rw [addAction_findRoom_ne rs s a key hk]; exact h,
        logFrame_of_eq room room rfl⟩
  | update aid d rep uid =>
    simp only [step]
    by_cases hk : key = roomKeyOf s.roomId
    · have h' : findRoom rs (roomKeyOf s.roomId) = some room := by rw [← hk]; exact h
      cases hfind : room.actions.find? (fun b => b.id = aid) with
      | none =>
        rw [updateAction_unknown rs s aid d rep uid room h' hfind]
        exact ⟨room, h, logFrame_of_eq room room rfl⟩
      | some act =>
        by_cases ho : act.userId = uid
        · refine ⟨{ room with
              actions := updateFirst (fun b => b.id = aid)
                           (setData (if rep then d else act.data ++ d)) room.actions },
            ?_,
            logFrame_of_updateFirst room _ (fun b => b.id = aid)
              (setData (if rep then d else act.data ++ d)) (fun b => ⟨rfl, rfl⟩) rfl⟩
          rw [updateAction_ok rs s aid d rep uid room act h' hfind ho, hk]
          exact findRoom_setRoom_self _ _ _
        · rw [updateAction_denied rs s aid d rep uid room act h' hfind ho]
          exact ⟨room, h, logFrame_of_eq room room rfl⟩
    · exact ⟨room, by rw [updateAction_findRoom_ne rs s aid d rep uid key hk]; exact h,
        logFrame_of_eq room room rfl⟩
  | undo aid uid =>
    simp only [step]
    by_cases hk : key = roomKeyOf s.roomId
    · have h' : findRoom rs (roomKeyOf s.roomId) = some room := by rw [← hk]; exact h
      cases hfind : room.actions.find? (fun b => b.id = aid) with
      | none =>
        rw [undoAction_unknown rs s aid uid room h' hfind]
        exact ⟨room, h, logFrame_of_eq room room rfl⟩
      | some act =>
        by_cases ho : act.userId = uid
        · refine ⟨{ room with
              actions := updateFirst (fun b => b.id = aid) (setUndone true) room.actions },
            ?_,
            logFrame_of_updateFirst room _ (fun b => b.id = aid)
              (setUndone true) (fun b => ⟨rfl, rfl⟩) rfl⟩
          rw [undoAction_ok rs s aid uid room act h' hfind ho, hk]
          exact findRoom_setRoom_self _ _ _
        · rw [undoAction_denied rs s aid uid room act h' hfind ho]
          exact ⟨room, h, logFrame_of_eq room room rfl⟩
    · exact ⟨room, by rw [undoAction_findRoom_ne rs s aid uid key hk]; exact h,
        logFrame_of_eq room room rfl⟩
  | redo aid uid =>
    simp only [step]
    by_cases hk : key = roomKeyOf s.roomId
    · have h' : findRoom rs (roomKeyOf s.roomId) = some room := by rw [← hk]; exact h
      cases hfind : room.actions.find? (fun b => b.id = aid) with
      | none =>
        rw [redoAction_unknown rs s aid uid room h' hfind]
        exact ⟨room, h, logFrame_of_eq room room rfl⟩
      | some act =>
        by_cases ho : act.userId = uid
        · refine ⟨{ room with
              actions := updateFirst (fun b => b.id = aid) (setUndone false) room.actions },
            ?_,
            logFrame_of_updateFirst room _ (fun b => b.id = aid)
              (setUndone false) (fun b => ⟨rfl, rfl⟩) rfl⟩
          rw [redoAction_ok rs s aid uid room act h' hfind ho, hk]
          exact findRoom_setRoom_self _ _ _
        · rw [redoAction_denied rs s aid uid room act h' hfind ho]
          exact ⟨room, h, logFrame_of_eq room room rfl⟩
    · exact ⟨room, by rw [redoAction_findRoom_ne rs s aid uid key hk]; exact h,
        logFrame_of_eq room room rfl⟩
  | disc =>
    simp only [step]
    rcases disconnect_findRoom_cases rs s key with h1 | ⟨room₀, room', h0, h1, h2⟩
    · exact ⟨room, by rw [h1]; exact h, logFrame_of_eq room room rfl⟩
    · have he : room₀ = room := Option.some.inj (h0.symm.trans h)
      exact ⟨room', h1, logFrame_of_eq room room' (he ▸ h2)⟩

/-- Claim C3: across every sequence of Create, Update, Undo, Redo, join, and
disconnect operations, a room's action log length is monotonically
non-decreasing and the `id` and owner of the entry at every existing index
are unchanged — no entry is removed or reordered; handlers only mutate
`payload` and `undone` in place or append. -/
theorem claim3_append_only_log (rs : Rooms) (s : SocketState) (ops : List Op)
    (key : String) (room : Room)
    (h : findRoom rs key = some room) :
    ∃ room', findRoom (runOps rs s ops).1 key = some room' ∧
      room.actions.length ≤ room'.actions.length ∧
      ∀ i, i < room.actions.length →
        (room'.actions.get? i).map (fun a => (a.id, a.userId)) =
        (room.actions.get? i).map (fun a => (a.id, a.userId)) := by
  induction ops generalizing rs s room with
  | nil => exact ⟨room, h, le_refl _, fun i _ => rfl⟩
  | cons op rest ih =>
    obtain ⟨room₁, h1, hlen1, hidx1⟩ := step_log_frame rs s op key room h
    obtain ⟨room₂, h2, hlen2, hidx2⟩ := ih (step rs s op).1 (step rs s op).2.1 room₁ h1
    refine ⟨room₂, ?_, le_trans hlen1 hlen2, ?_⟩
    · simpa [runOps] using h2
    · intro i hi
      exact (hidx2 i (lt_of_lt_of_le hi hlen1)).trans (hidx1 i hi)

/-- Witness for C3: a Create of "a2" followed by an Undo of "a1" and a
disconnect in room "r" never shrinks the log or touches entry ids. -/
theorem claim3_append_only_log_witness :
    (findRoom wRooms "r" = some wRoom) ∧
    (∃ room',
      findRoom (runOps wRooms wSock [Op.add wAct2, Op.undo "a1" "A", Op.disc]).1 "r" =
        some room' ∧
      wRoom.actions.length ≤ room'.actions.length ∧
      ∀ i, i < wRoom.actions.length →
        (room'.actions.get? i).map (fun a => (a.id, a.userId)) =
        (wRoom.actions.get? i).map (fun a => (a.id, a.userId))) :=
  ⟨rfl, claim3_append_only_log wRooms wSock [Op.add wAct2, Op.undo "a1" "A", Op.disc]
    "r" wRoom rfl⟩

/-- Claim C8: every Update, Undo, and Redo leaves the `id` and owner
identity of every entry of the room's log unchanged at its index; Update
additionally leaves `undone` unchanged and Undo/Redo additionally leave the
payload unchanged, so `id` and owner keep their creation-time values. -/
theorem claim8_id_owner_immutable (rs : Rooms) (s : SocketState)
    (aid uid : String) (d : JsObj) (rep : Bool) (room : Room)
    (hroom : findRoom rs (roomKeyOf s.roomId) = some room) :
    ∀ i a, room.actions.get? i = some a →
      (∃ room' a',
        findRoom (updateAction rs s aid d rep uid).1 (roomKeyOf s.roomId) = some room' ∧
        room'.actions.get? i = some a' ∧
        a'.id = a.id ∧ a'.userId = a.userId ∧ a'.undone = a.undone) ∧
      (∃ room' a',
        findRoom (undoAction rs s aid uid).1 (roomKeyOf s.roomId) = some room' ∧
        room'.actions.get? i = some a' ∧
        a'.id = a.id ∧ a'.userId = a.userId ∧ a'.data = a.data) ∧
      (∃ room' a',
        findRoom (redoAction rs s aid uid).1 (roomKeyOf s.roomId) = some room' ∧
        room'.actions.get? i = some a' ∧
        a'.id = a.id ∧ a'.userId = a.userId ∧ a'.data = a.data) := by
  intro i a hga
  refine ⟨?_, ?_, ?_⟩
  · cases hfind : room.actions.find? (fun b => b.id = aid) with
    | none =>
      rw [updateAction_unknown rs s aid d rep uid room hroom hfind]
      exact ⟨room, a, hroom, hga, rfl, rfl, rfl⟩
    | some act =>
      by_cases ho : act.userId = uid
      · rw [updateAction_ok rs s aid d rep uid room act hroom hfind ho]
        rcases updateFirst_get?_cases (fun b => b.id = aid)
            (setData (if rep then d else act.data ++ d)) room.actions i a hga with
          ⟨a', ha', hc⟩
        refine ⟨_, a', findRoom_setRoom_self _ _ _, ha', ?_⟩
        rcases hc with rfl | rfl
        · exact ⟨rfl, rfl, rfl⟩
        · exact ⟨rfl, rfl, rfl⟩
      · rw [updateAction_denied rs s aid d rep uid room act hroom hfind ho]
        exact ⟨room, a, hroom, hga, rfl, rfl, rfl⟩
  · cases hfind : room.actions.find? (fun b => b.id = aid) with
    | none =>
      rw [undoAction_unknown rs s aid uid room hroom hfind]
      exact ⟨room, a, hroom, hga, rfl, rfl, rfl⟩
    | some act =>
      by_cases ho : act.userId = uid
      · rw [undoAction_ok rs s aid uid room act hroom hfind ho]
        rcases updateFirst_get?_cases (fun b => b.id = aid)
            (setUndone true) room.actions i a hga with ⟨a', ha', hc⟩
        refine ⟨_, a', findRoom_setRoom_self _ _ _, ha', ?_⟩
        rcases hc with rfl | rfl
        · exact ⟨rfl, rfl, rfl⟩
        · exact ⟨rfl, rfl, rfl⟩
      · rw [undoAction_denied rs s aid uid room act hroom hfind ho]
        exact ⟨room, a, hroom, hga, rfl, rfl, rfl⟩
  · cases hfind : room.actions.find? (fun b => b.id = aid) with
    | none =>
      rw [redoAction_unknown rs s aid uid room hroom hfind]
      exact ⟨room, a, hroom, hga, rfl, rfl, rfl⟩
    | some act =>
      by_cases ho : act.userId = uid
      · rw [redoAction_ok rs s aid uid room act hroom hfind ho]
        rcases updateFirst_get?_cases (fun b => b.id = aid)
            (setUndone false) room.actions i a hga with ⟨a', ha', hc⟩
        refine ⟨_, a', findRoom_setRoom_self _ _ _, ha', ?_⟩
        rcases hc with rfl | rfl
        · exact ⟨rfl, rfl, rfl⟩
        · exact ⟨rfl, rfl, rfl⟩
      · rw [redoAction_denied rs s aid uid room act hroom hfind ho]
        exact ⟨room, a, hroom, hga, rfl, rfl, rfl⟩

/-- Witness for C8: the accepted Update, Undo, and Redo of action "a1" by
its owner "A" keep the `id` and owner at index 0 of room "r". -/
theorem claim8_id_owner_immutable_witness :
    (findRoom wRooms (roomKeyOf wSock.roomId) = some wRoom ∧
     wRoom.actions.get? 0 = some wAct) ∧
    ((∃ room' a',
      findRoom (updateAction wRooms wSock "a1" [] true "A").1 (roomKeyOf wSock.roomId) =
        some room' ∧
      room'.actions.get? 0 = some a' ∧
      a'.id = wAct.id ∧ a'.userId = wAct.userId ∧ a'.undone = wAct.undone) ∧
    (∃ room' a',
      findRoom (undoAction wRooms wSock "a1" "A").1 (roomKeyOf wSock.roomId) =
        some room' ∧
      room'.actions.get? 0 = some a' ∧
      a'.id = wAct.id ∧ a'.userId = wAct.userId ∧ a'.data = wAct.data) ∧
    (∃ room' a',
      findRoom (redoAction wRooms wSock "a1" "A").1 (roomKeyOf wSock.roomId) =
        some room' ∧
      room'.actions.get? 0 = some a' ∧
      a'.id = wAct.id ∧ a'.userId = wAct.userId ∧ a'.data = wAct.data)) :=
  ⟨⟨rfl, rfl⟩,
   claim8_id_owner_immutable wRooms wSock "a1" "A" [] true wRoom rfl 0 wAct rfl⟩

end RealtimeCanvas
